import Mathlib

set_option maxRecDepth 4000

/-!
Shallow embedding of the multi-cluster traffic controller core:

* the Gateway traffic accessor (`pkg/traffic/gateway.go`),
* the Gateway reconciler (`pkg/controllers/gateway/gateway_controller.go`),
* the Ingress reconciler `Handle` (`pkg/controllers/ingress`).

Kubernetes API reads and writes, certificate issuance, DNS registration
and secret copies are modelled through an environment of oracles plus an
effect trace, so that a reconcile pass becomes a pure function from the
fetched object and the environment to a result, an optional error, the
trace of external calls made, and the in-memory object at return.
Machine `nil` pointer dereferences (which panic in Go) are modelled by
`Option`: a `none` result of an operation means the Go code would panic.
-/

/-- Kubernetes object annotations. The Go `map[string]string` is modelled
as an association list in which insertion replaces the value of an
existing key in place (observable behaviour of a Go map is its lookup
function; `reflect.DeepEqual` on maps is extensional equality, which on
the lists produced here coincides with list equality). -/
abbrev Annotations := List (String × String)

def annLookup (a : Annotations) (k : String) : Option String :=
  match a with
  | [] => none
  | (k2, v) :: rest => if k2 = k then some v else annLookup rest k

def annInsert (a : Annotations) (k v : String) : Annotations :=
  match a with
  | [] => [(k, v)]
  | (k2, v2) :: rest => if k2 = k then (k, v) :: rest else (k2, v2) :: annInsert rest k v

/-- Status of a `metav1.Condition` (True / False / Unknown). -/
inductive CondStatus
  | condTrue
  | condFalse
  | condUnknown
deriving DecidableEq, Repr

/-- A `metav1.Condition` as written by the Gateway reconciler.
`metav1.Time` is modelled as a natural number. -/
structure Condition where
  lastTransitionTime : Nat
  message : String
  reason : String
  status : CondStatus
  condType : String
  observedGeneration : Nat
deriving DecidableEq, Repr

/-- A `gatewayv1beta1.SecretObjectReference` (name plus optional namespace). -/
structure SecretRef where
  refName : String
  refNs : Option String
deriving DecidableEq, Repr

/-- A `gatewayv1beta1.GatewayTLSConfig` (only the certificate refs are used). -/
structure GatewayTLSConfig where
  certificateRefs : List SecretRef
deriving DecidableEq, Repr

/-- A `gatewayv1beta1.Listener`. `Hostname` is a pointer in the Go API,
hence `Option String`; a `none` hostname dereference panics. -/
structure Listener where
  listenerName : String
  hostname : Option String
  tls : Option GatewayTLSConfig
deriving DecidableEq, Repr

structure GatewaySpec where
  gatewayClassName : String
  listeners : List Listener
deriving DecidableEq, Repr

structure GatewayStatus where
  conditions : List Condition
deriving DecidableEq, Repr

/-- A `gatewayv1beta1.Gateway` restricted to the fields the embedded code
reads or writes. `deletionTs` models the deletion timestamp pointer
(`none` = nil, `some 0` = non-nil zero time). -/
structure Gateway where
  ns : String
  gwName : String
  generation : Nat
  annotations : Annotations
  deletionTs : Option Nat
  spec : GatewaySpec
  status : GatewayStatus
deriving DecidableEq, Repr

/-! ## Traffic accessor for Gateway (pkg/traffic/gateway.go) -/

/-- GetHosts: iterates the listeners, dereferences each `Hostname`
pointer unconditionally (`host := (*string)(listener.Hostname); *host`)
and appends it to the result when not already present. A `none` hostname
makes the whole call `none` (the Go code panics there). -/
def getHostsLoop : Option (List String) → List Listener → Option (List String)
  | acc, [] => acc
  | acc, l :: rest =>
    getHostsLoop
      (match acc, l.hostname with
       | some hs, some h => some (if h ∈ hs then hs else hs ++ [h])
       | _, _ => none)
      rest

def Gateway.getHosts? (g : Gateway) : Option (List String) :=
  getHostsLoop (some []) g.spec.listeners

/-- AddManagedHost on a Gateway: the source body is
`// Not implemented for Gateways` followed by `return nil`; it returns a
nil error and performs no mutation. The first component is the returned
Go error (`none` = nil). -/
def Gateway.addManagedHost (g : Gateway) (_h : String) : Option String × Gateway :=
  (none, g)

/-- The per-listener body of AddTLS, total part: when the listener
hostname equals `host` replace the TLS block with one certificate ref
naming the secret in the gateway namespace, otherwise keep the listener. -/
def addTLSGo (gwNs host secretName : String) (l : Listener) : Listener :=
  if l.hostname = some host then
    { l with tls := some { certificateRefs := [{ refName := secretName, refNs := some gwNs }] } }
  else l

/-- The per-listener body of AddTLS as executed by Go: the comparison
`*(*string)(listener.Hostname) == host` dereferences the hostname
pointer, so a nil hostname panics (`none`). -/
def addTLSStep (gwNs host secretName : String) (l : Listener) : Option Listener :=
  match l.hostname with
  | none => none
  | some h =>
    some (if h = host then
            { l with tls := some { certificateRefs := [{ refName := secretName, refNs := some gwNs }] } }
          else l)

/-- Option-valued map used to run `addTLSStep` over all listeners
(the Go loop panics at the first nil hostname, before the final slice
assignment). -/
def mapOpt (f : Listener → Option Listener) : List Listener → Option (List Listener)
  | [] => some []
  | l :: rest =>
    match f l, mapOpt f rest with
    | some l2, some rest2 => some (l2 :: rest2)
    | _, _ => none

/-- AddTLS: rebuilds the listener slice, replacing the TLS block of every
listener whose hostname equals `host`, then assigns it back to the spec.
Only the secret name is read from the secret argument. -/
def Gateway.addTLS? (g : Gateway) (host secretName : String) : Option Gateway :=
  match mapOpt (addTLSStep g.ns host secretName) g.spec.listeners with
  | none => none
  | some ls => some { g with spec := { g.spec with listeners := ls } }

/-- RemoveTLS as the source executes it. The Go body is

  for _, listener := range a.Spec.Listeners \x7b
      if slice.ContainsString(hosts, fmt.Sprint(listener.Hostname)) \x7b
          listener.TLS = nil
      \x7d
  \x7d

The range variable `listener` is a by-value copy of each slice element,
so `listener.TLS = nil` mutates the copy, which is then discarded; the
gateway itself is never written (additionally, `fmt.Sprint` of the
`*Hostname` pointer renders a pointer address, not the hostname, so the
membership test compares an address against the host list). The function
therefore returns the gateway unchanged. -/
def Gateway.removeTLS (g : Gateway) (_hosts : List String) : Gateway :=
  g

/-- Hostname-well-formedness of a gateway: every listener carries a
non-nil hostname pointer. Under this precondition none of the accessor
operations panic. -/
def hostnamesSetB (g : Gateway) : Bool :=
  g.spec.listeners.all (fun l => l.hostname.isSome)

/-- First-occurrence deduplication of a list of hostnames: keeps each
distinct element once, in order of first occurrence. Total counterpart
of the accumulator discipline inside GetHosts. -/
def dedupLoop : List String → List String → List String
  | acc, [] => acc
  | acc, x :: rest => dedupLoop (if x ∈ acc then acc else acc ++ [x]) rest

def dedupFirst (xs : List String) : List String :=
  dedupLoop [] xs

/-! ## Gateway reconciler (pkg/controllers/gateway/gateway_controller.go) -/

/-- The value of the constant ClusterSyncerAnnotation. -/
def clusterSyncerAnnKey : String := "clustersync.kuadrant.io"

/-- The value of the constant GatewayClusterLabelSelectorAnnotation. -/
def gatewayClusterLabelSelectorAnnKey : String := "kuadrant.io/gateway-cluster-label-selector"

/-- The full annotation key written for one cluster id. -/
def syncKey (cluster : String) : String :=
  clusterSyncerAnnKey ++ "/" ++ cluster

/-- applyClusterSyncerAnnotationsToObject: for each cluster id, set the
annotation `clustersync.kuadrant.io/<cluster-id>` to the string "True"
(note the capital T in the source). The nil-map guard of the Go code is a
no-op under the association-list model. -/
def applyClusterSyncerAnnotationsToObject (anns : Annotations) (clusters : List String) : Annotations :=
  clusters.foldl (fun a c => annInsert a (syncKey c) "True") anns

/-- selectClusters: reads the cluster label selector annotation; the
current implementation is hardcoded to return the single cluster
test_cluster_one when the selector is exactly "type=test", and the empty
list otherwise (including when the annotation map is nil or the key is
absent, in which case the Go map read yields ""). -/
def selectClusters (g : Gateway) : List String :=
  match annLookup g.annotations gatewayClusterLabelSelectorAnnKey with
  | none => []
  | some selector => if selector = "type=test" then ["test_cluster_one"] else []

/-- The v1.DNSZone handle carried inside a dns.Zone and handed to
RegisterHost. Its concrete fields are not in the sources; a single
zone identifier stands for the provider handle. -/
structure DNSZone where
  zoneID : String
deriving DecidableEq, Repr

/-- A dns.Zone of the managed-zone registry. The reconciler reads the
fields ID, Default and DNSZone; rootDomain is the root domain of the
managed zone (spec section 3, ManagedZone), carried here so that the
specification-side resolution rule can be stated against the same data. -/
structure Zone where
  zid : String
  rootDomain : String
  isDefault : Bool
  dnsZone : DNSZone
deriving DecidableEq, Repr

/-- The zero value of dns.Zone, the initial value of chosenZone. -/
def zeroZone : Zone :=
  { zid := "", rootDomain := "", isDefault := false, dnsZone := { zoneID := "" } }

/-- The zone selection loop of Reconcile:
`for _, z := range zones; if z.Default then chosenZone = z; break`.
chosenZone starts as the zero value; the first zone whose Default flag is
set wins; the host being registered plays no part. When no zone is
default, the zero zone (empty ID) is kept; the code logs "No zone to use"
but still proceeds to register the host against it. -/
def chooseZone : List Zone → Zone
  | [] => zeroZone
  | z :: rest => if z.isDefault then z else chooseZone rest

/-- A certificate secret (corev1.Secret restricted to the fields the
reconciler touches: name and annotations). -/
structure SecretObj where
  secName : String
  secAnnotations : Annotations
deriving DecidableEq, Repr

/-- Outcome of CertificateService.EnsureCertificate: success, an
IsAlreadyExists error (treated as success by the caller), or a hard
failure. -/
inductive EnsureRes
  | ok
  | alreadyExists
  | failed
deriving DecidableEq, Repr

/-- Outcome of CertificateService.GetCertificateSecret: the secret, an
IsNotFound error, or a hard failure. -/
inductive SecRes
  | found (s : SecretObj)
  | notFound
  | failed
deriving DecidableEq, Repr

/-- External calls a Gateway reconcile pass performs, in order. -/
inductive Effect
  | ensureCert (host : String)
  | updateSecret (secretName : String)
  | statusUpdate (conds : List Condition)
  | registerHost (host : String) (hostKey : String) (zone : DNSZone)
  | addEndpoints
  | updateGateway
deriving DecidableEq, Repr

/-- Environment of one Gateway reconcile pass: the clock, the controller
name, whether the GatewayClass fetch succeeds, the certificate service
oracles, the managed zones, the shortuuid host key derived from
namespace+name, and the outcomes of RegisterHost / AddEndPoints. -/
structure Env where
  now : Nat
  controllerName : String
  classExists : Bool
  ensureRes : String → EnsureRes
  secretRes : String → SecRes
  zones : List Zone
  hostKey : String
  registerOk : String → Bool
  endpointsOk : Bool

/-- A ctrl.Result (requeue flag and RequeueAfter in seconds). -/
structure RecResult where
  requeue : Bool
  afterSec : Nat
deriving DecidableEq, Repr

/-- Result of one reconcile pass: the ctrl.Result, the returned Go error,
the effect trace, and the in-memory gateway at return. -/
structure RecOut where
  res : RecResult
  err : Option String
  effects : List Effect
  gw : Gateway
deriving DecidableEq, Repr

/-- Deletion check `GetDeletionTimestamp() != nil && !IsZero()`. -/
def isDeleting (ts : Option Nat) : Bool :=
  match ts with
  | some t => t != 0
  | none => false

/-- The Accepted condition built at the top of Reconcile. -/
def mkAcceptedCondition (now : Nat) (controllerName : String) (gen : Nat) : Condition :=
  { lastTransitionTime := now
    message := "Handled by " ++ controllerName
    reason := "Accepted"
    status := CondStatus.condTrue
    condType := "Accepted"
    observedGeneration := gen }

/-- The Programmed=Unknown condition written while clusters are selected
but the pass has not finished. -/
def mkProgrammedPending (now gen : Nat) : Condition :=
  { lastTransitionTime := now
    message := "Waiting for controller"
    reason := "Pending"
    status := CondStatus.condUnknown
    condType := "Programmed"
    observedGeneration := gen }

/-- The Programmed=False condition written when no cluster matches. -/
def mkProgrammedNoClusters (now gen : Nat) : Condition :=
  { lastTransitionTime := now
    message := "No clusters match selection"
    reason := "Pending"
    status := CondStatus.condFalse
    condType := "Programmed"
    observedGeneration := gen }

/-- The Programmed=True condition written at the end of a full pass. -/
def mkProgrammedTrue (now : Nat) (clusters : List String) (gen : Nat) : Condition :=
  { lastTransitionTime := now
    message := "Gateway configured in data plane cluster(s) - [" ++ String.intercalate "," clusters ++ "]"
    reason := "Programmed"
    status := CondStatus.condTrue
    condType := "Programmed"
    observedGeneration := gen }

/-- Replace the status conditions of a gateway (the in-memory assignment
`gateway.Status.Conditions = ...`). -/
def setConditions (g : Gateway) (conds : List Condition) : Gateway :=
  { g with status := { conditions := conds } }

/-- The per-host certificate loop of Reconcile (EnsureCertificate,
GetCertificateSecret, secret sync annotations plus conditional secret
update, AddTLS). `Sum.inl` is an early return from Reconcile; `Sum.inr`
is normal loop completion with the mutated gateway and the trace so far;
`none` is a Go panic (nil hostname dereference inside AddTLS). -/
def certLoop (env : Env) (clusters : List String) :
    List String → Gateway → List Effect → Option (RecOut ⊕ (Gateway × List Effect))
  | [], g, effs => some (Sum.inr (g, effs))
  | host :: rest, g, effs =>
    let effs1 := effs ++ [Effect.ensureCert host]
    match env.ensureRes host with
    | EnsureRes.failed =>
      some (Sum.inl { res := { requeue := false, afterSec := 0 },
                      err := some "Error ensuring certificate", effects := effs1, gw := g })
    | _ =>
      match env.secretRes host with
      | SecRes.failed =>
        some (Sum.inl { res := { requeue := false, afterSec := 0 },
                        err := some "Error getting certificate secret", effects := effs1, gw := g })
      | SecRes.notFound =>
        some (Sum.inl { res := { requeue := true, afterSec := 10 },
                        err := none, effects := effs1, gw := g })
      | SecRes.found s =>
        let newAnns := applyClusterSyncerAnnotationsToObject s.secAnnotations clusters
        let effs2 := if newAnns ≠ s.secAnnotations
                     then effs1 ++ [Effect.updateSecret s.secName] else effs1
        match g.addTLS? host s.secName with
        | none => none
        | some g2 => certLoop env clusters rest g2 effs2

/-- The host registration loop of Reconcile: per host, compute the chosen
zone from the managed zones and call RegisterHost with the host, the
shortuuid host key and the chosen zone handle; a RegisterHost failure
ends the pass with an error. -/
def registerLoop (env : Env) : List String → List Effect → List Effect × Option String
  | [], effs => (effs, none)
  | host :: rest, effs =>
    let chosen := chooseZone env.zones
    let effs1 := effs ++ [Effect.registerHost host env.hostKey chosen.dnsZone]
    if env.registerOk host then registerLoop env rest effs1
    else (effs1, some "failed to register host")

/-- One Gateway reconcile pass, starting after a successful fetch of the
gateway. Mirrors Reconcile in gateway_controller.go: deletion check,
GatewayClass fetch, Accepted condition, cluster selection, initial
Programmed condition and conditional status write; then, only when at
least one cluster matched: the certificate loop, the registration loop,
AddEndPoints, the sync annotations plus conditional gateway update, and
the final Programmed=True condition with a second conditional status
write. `none` models a panic. -/
def reconcile (previous : Gateway) (env : Env) : Option RecOut :=
  if isDeleting previous.deletionTs then
    some { res := { requeue := false, afterSec := 0 }, err := none, effects := [], gw := previous }
  else if env.classExists = false then
    some { res := { requeue := false, afterSec := 0 }, err := none, effects := [], gw := previous }
  else
    let accepted := mkAcceptedCondition env.now env.controllerName previous.generation
    let clusters := selectClusters previous
    let programmed :=
      if clusters.length > 0 then mkProgrammedPending env.now previous.generation
      else mkProgrammedNoClusters env.now previous.generation
    let gateway := setConditions previous [accepted, programmed]
    let effs : List Effect :=
      if gateway.status ≠ previous.status
      then [Effect.statusUpdate gateway.status.conditions] else []
    if clusters.length > 0 then
      match gateway.getHosts? with
      | none => none
      | some hosts =>
        match certLoop env clusters hosts gateway effs with
        | none => none
        | some (Sum.inl out) => some out
        | some (Sum.inr (g2, effs2)) =>
          match registerLoop env hosts effs2 with
          | (effs3, some e) =>
            some { res := { requeue := false, afterSec := 0 }, err := some e,
                   effects := effs3, gw := g2 }
          | (effs3, none) =>
            let effs4 := effs3 ++ [Effect.addEndpoints]
            if env.endpointsOk = false then
              some { res := { requeue := false, afterSec := 0 },
                     err := some "Error adding endpoints", effects := effs4, gw := g2 }
            else
              let g3 := { g2 with
                annotations := applyClusterSyncerAnnotationsToObject g2.annotations clusters }
              let effs5 := if g3 ≠ previous then effs4 ++ [Effect.updateGateway] else effs4
              let programmed2 := mkProgrammedTrue env.now clusters previous.generation
              let g4 := setConditions g3 [accepted, programmed2]
              let effs6 := if g4.status ≠ previous.status
                           then effs5 ++ [Effect.statusUpdate g4.status.conditions] else effs5
              some { res := { requeue := false, afterSec := 0 }, err := none,
                     effects := effs6, gw := g4 }
    else
      some { res := { requeue := false, afterSec := 0 }, err := none,
             effects := effs, gw := gateway }

/-! ## Ingress reconciler Handle (pkg/controllers/ingress) -/

/-- The traffic finalizer token (pkg/traffic, TrafficFinalizer). -/
def trafficFinalizer : String := "kuadrant.io/traffic-management"

/-- controllerutil.AddFinalizer: append the token when absent. -/
def addFinalizer (fs : List String) : List String :=
  if trafficFinalizer ∈ fs then fs else fs ++ [trafficFinalizer]

/-- controllerutil.RemoveFinalizer: drop every occurrence of the token. -/
def removeFinalizer (fs : List String) : List String :=
  fs.filter (fun f => f ≠ trafficFinalizer)

/-- The traffic accessor as Handle sees it, abstracted over the concrete
variant: the deletion timestamp, the result of GetHosts, the result of
GetDNSTargets (value strings; `none` = the call errored), and the
finalizer list. -/
structure Accessor where
  deletionTs : Option Nat
  hosts : List String
  dnsTargets : Option (List String)
  finalizers : List String
deriving DecidableEq, Repr

/-- External calls an Ingress Handle pass performs, in order. The patch
effect records the exact arguments of DnsService.PatchTargets together
with whether the call succeeded. -/
inductive IEffect
  | getSecret (host : String)
  | copySecret (host : String)
  | addTLS (host : String) (secretName : String)
  | patchTargets (targets : List String) (hosts : List String) (clusterID : String)
      (remove : Bool) (ok : Bool)
  | addFin
  | removeFin
deriving DecidableEq, Repr

/-- Environment of one Handle pass: the certificate secret oracle per
host, the outcome of copySecretToWorkloadCluster per host, and the
outcome of each PatchTargets call as a function of its arguments. -/
structure IEnv where
  secretRes : String → SecRes
  copyOk : String → Bool
  patchOk : List String → List String → String → Bool → Bool

/-- Result of one Handle pass: the ctrl.Result, the returned Go error,
the effect trace, and the finalizer list of the accessor at return. -/
structure HOut where
  res : RecResult
  err : Option String
  effects : List IEffect
  finalizers : List String
deriving DecidableEq, Repr

/-- The per-host certificate loop of Handle (GetCertificateSecret,
copySecretToWorkloadCluster, AddTLS). The second component is `some` of
(result, error) on early return from Handle, `none` on loop completion. -/
def ihostLoop (env : IEnv) : List String → List IEffect → List IEffect × Option (RecResult × Option String)
  | [], effs => (effs, none)
  | host :: rest, effs =>
    let effs1 := effs ++ [IEffect.getSecret host]
    match env.secretRes host with
    | SecRes.failed =>
      (effs1, some ({ requeue := false, afterSec := 0 }, some "error getting certificate secret"))
    | SecRes.notFound =>
      (effs1, some ({ requeue := true, afterSec := 10 }, none))
    | SecRes.found s =>
      let effs2 := effs1 ++ [IEffect.copySecret host]
      if env.copyOk host then
        ihostLoop env rest (effs2 ++ [IEffect.addTLS host s.secName])
      else
        (effs2, some ({ requeue := false, afterSec := 0 }, some "error copying secret"))

/-- Handle of the Ingress reconciler. Mirrors the source: when the
deletion timestamp is set and non-zero, PatchTargets is called with empty
targets, the accessor hosts, this cluster id and remove=true, and on
success the finalizer is removed; otherwise the certificate loop runs,
the DNS targets are read, and either a remove=false upsert (non-empty
targets, nil deletion timestamp) followed by AddFinalizer, or a
remove=true withdrawal followed by RemoveFinalizer, each only on success
of the respective call; a failed patch returns a requeue after 10 s
together with the error and leaves the finalizers untouched. -/
def handle (clusterID : String) (acc : Accessor) (env : IEnv) : HOut :=
  if isDeleting acc.deletionTs then
    let ok := env.patchOk [] acc.hosts clusterID true
    let effs := [IEffect.patchTargets [] acc.hosts clusterID true ok]
    if ok then
      { res := { requeue := false, afterSec := 0 }, err := none,
        effects := effs ++ [IEffect.removeFin], finalizers := removeFinalizer acc.finalizers }
    else
      { res := { requeue := true, afterSec := 10 }, err := some "patch targets failed",
        effects := effs, finalizers := acc.finalizers }
  else
    match ihostLoop env acc.hosts [] with
    | (effs, some (res, err)) =>
      { res := res, err := err, effects := effs, finalizers := acc.finalizers }
    | (effs, none) =>
      match acc.dnsTargets with
      | none =>
        { res := { requeue := false, afterSec := 0 }, err := some "error getting dns targets",
          effects := effs, finalizers := acc.finalizers }
      | some targets =>
        if targets.length > 0 ∧ acc.deletionTs = none then
          let ok := env.patchOk targets acc.hosts clusterID false
          let effs1 := effs ++ [IEffect.patchTargets targets acc.hosts clusterID false ok]
          if ok then
            { res := { requeue := false, afterSec := 0 }, err := none,
              effects := effs1 ++ [IEffect.addFin], finalizers := addFinalizer acc.finalizers }
          else
            { res := { requeue := true, afterSec := 10 }, err := some "patch targets failed",
              effects := effs1, finalizers := acc.finalizers }
        else
          let ok := env.patchOk targets acc.hosts clusterID true
          let effs1 := effs ++ [IEffect.patchTargets targets acc.hosts clusterID true ok]
          if ok then
            { res := { requeue := false, afterSec := 0 }, err := none,
              effects := effs1 ++ [IEffect.removeFin], finalizers := removeFinalizer acc.finalizers }
          else
            { res := { requeue := true, afterSec := 10 }, err := some "patch targets failed",
              effects := effs1, finalizers := acc.finalizers }

/-! ## Specification-side model of managed-zone resolution -/

/-- Suffix test on strings through their character lists. -/
def strEndsWith (s post : String) : Bool :=
  post.data.isSuffixOf s.data

/-- Modelled from the spec: section 4.2 Managed-Zone Registry,
`resolve(host)`. Missing from src/: no resolution routine exists in the
sources (the reconciler only scans for a default zone). Resolution picks
the zones whose root-domain is a suffix of the host, keeps those of
maximal root-domain length; a unique one wins; among several the one
with default=true wins; if none of them is default the resolution fails
(AmbiguousZone, here `none`); no matching zone is also `none`. -/
def resolveZoneSpecModel (host : String) (zones : List Zone) : Option Zone :=
  let matching := zones.filter (fun z => strEndsWith host z.rootDomain)
  let maxLen := matching.foldl (fun m z => max m z.rootDomain.length) 0
  let best := matching.filter (fun z => z.rootDomain.length == maxLen)
  match best with
  | [] => none
  | [z] => some z
  | _ =>
    match best.filter (fun z => z.isDefault) with
    | z :: _ => some z
    | [] => none

/-! ## Concrete instances used by closed theorems -/

/-- Managed zone example.com, default. -/
def zoneExample : Zone :=
  { zid := "mz-example", rootDomain := "example.com", isDefault := true,
    dnsZone := { zoneID := "mz-example" } }

/-- Managed zone eu.example.com, not default. -/
def zoneEU : Zone :=
  { zid := "mz-eu", rootDomain := "eu.example.com", isDefault := false,
    dnsZone := { zoneID := "mz-eu" } }

/-- A gateway with one listener on svc.eu.example.com and a cluster
selector that matches the hardcoded selector. -/
def c2Gw : Gateway :=
  { ns := "tenant-a", gwName := "gw", generation := 1,
    annotations := [(gatewayClusterLabelSelectorAnnKey, "type=test")],
    deletionTs := none,
    spec := { gatewayClassName := "mctc",
              listeners := [{ listenerName := "l1", hostname := some "svc.eu.example.com",
                              tls := none }] },
    status := { conditions := [] } }

/-- Environment where every certificate secret is present, both managed
zones exist and all infrastructure calls succeed. -/
def c2Env : Env :=
  { now := 5, controllerName := "mctc", classExists := true,
    ensureRes := fun _ => EnsureRes.ok,
    secretRes := fun h => SecRes.found { secName := h, secAnnotations := [] },
    zones := [zoneExample, zoneEU], hostKey := "hk",
    registerOk := fun _ => true, endpointsOk := true }

/-- Junk default used to name the outcome of a concrete pass. -/
def junkRecOut : RecOut :=
  { res := { requeue := false, afterSec := 0 }, err := none, effects := [], gw := c2Gw }

/-- The outcome of the concrete pass of c2Gw under c2Env. -/
def c2Out : RecOut := (reconcile c2Gw c2Env).getD junkRecOut

/-- A gateway with one TLS-bearing listener, input of the RemoveTLS run. -/
def c7Gw : Gateway :=
  { ns := "tenant-a", gwName := "gw", generation := 1,
    annotations := [], deletionTs := none,
    spec := { gatewayClassName := "mctc",
              listeners := [{ listenerName := "l1", hostname := some "app.example.com",
                              tls := some { certificateRefs :=
                                [{ refName := "app-tls", refNs := some "tenant-a" }] } }] },
    status := { conditions := [] } }

/-- A plain gateway used for the AddManagedHost run. -/
def c9Gw : Gateway :=
  { ns := "tenant-a", gwName := "gw", generation := 1,
    annotations := [], deletionTs := none,
    spec := { gatewayClassName := "mctc",
              listeners := [{ listenerName := "l1", hostname := some "app.example.com",
                              tls := none }] },
    status := { conditions := [] } }

/-- A gateway with an empty cluster selection (no selector annotation). -/
def c1Gw : Gateway :=
  { ns := "tenant-a", gwName := "gw", generation := 1,
    annotations := [], deletionTs := none,
    spec := { gatewayClassName := "mctc",
              listeners := [{ listenerName := "l1", hostname := some "app.example.com",
                              tls := none }] },
    status := { conditions := [] } }

/-- Environment of the first concrete pass (clock 1). -/
def c6Env1 : Env :=
  { now := 1, controllerName := "mctc", classExists := true,
    ensureRes := fun _ => EnsureRes.ok,
    secretRes := fun _ => SecRes.notFound,
    zones := [], hostKey := "hk",
    registerOk := fun _ => true, endpointsOk := true }

/-- Environment of the second concrete pass (clock 2, otherwise equal). -/
def c6Env2 : Env :=
  { now := 2, controllerName := "mctc", classExists := true,
    ensureRes := fun _ => EnsureRes.ok,
    secretRes := fun _ => SecRes.notFound,
    zones := [], hostKey := "hk",
    registerOk := fun _ => true, endpointsOk := true }

/-- Outcome of the first pass over c1Gw. -/
def c6Out1 : RecOut := (reconcile c1Gw c6Env1).getD junkRecOut

/-- Outcome of the second pass, started from the gateway the first pass
left in memory. -/
def c6Out2 : RecOut := (reconcile c6Out1.gw c6Env2).getD junkRecOut

/-- A gateway whose listeners duplicate one hostname, used to exercise
GetHosts deduplication. -/
def c10Gw : Gateway :=
  { ns := "tenant-a", gwName := "gw", generation := 1,
    annotations := [], deletionTs := none,
    spec := { gatewayClassName := "mctc",
              listeners :=
                [{ listenerName := "l1", hostname := some "a.example.com", tls := none },
                 { listenerName := "l2", hostname := some "b.example.com", tls := none },
                 { listenerName := "l3", hostname := some "a.example.com", tls := none }] },
    status := { conditions := [] } }

/-- A deleting ingress accessor holding the finalizer. -/
def c3Acc : Accessor :=
  { deletionTs := some 3, hosts := ["a.example.com"],
    dnsTargets := some ["10.0.0.1"], finalizers := [trafficFinalizer] }

/-- Ingress environment in which every external call succeeds. -/
def c3Env : IEnv :=
  { secretRes := fun h => SecRes.found { secName := h, secAnnotations := [] },
    copyOk := fun _ => true,
    patchOk := fun _ _ _ _ => true }

/-! ## Lemmas on annotations -/

theorem annLookup_annInsert_self (a : Annotations) (k v : String) :
    annLookup (annInsert a k v) k = some v := by
  induction a with
  | nil => simp [annInsert, annLookup]
  | cons p rest ih =>
    obtain ⟨k2, v2⟩ := p
    by_cases h : k2 = k
    · simp [annInsert, h, annLookup]
    · simp [annInsert, h, annLookup, ih]

theorem annLookup_annInsert_ne (a : Annotations) (k v k2 : String) (h : k2 ≠ k) :
    annLookup (annInsert a k v) k2 = annLookup a k2 := by
  have hk : ¬ (k = k2) := fun hh => h hh.symm
  induction a with
  | nil => simp [annInsert, annLookup, hk]
  | cons p rest ih =>
    obtain ⟨k3, v3⟩ := p
    by_cases h3 : k3 = k
    · subst h3
      simp [annInsert, annLookup, hk]
    · simp [annInsert, h3, annLookup, ih]

theorem annInsert_of_lookup_eq (a : Annotations) (k v : String)
    (h : annLookup a k = some v) : annInsert a k v = a := by
  induction a with
  | nil => simp [annLookup] at h
  | cons p rest ih =>
    obtain ⟨k2, v2⟩ := p
    by_cases h2 : k2 = k
    · subst h2
      simp [annLookup] at h
      simp [annInsert, h]
    · simp [annLookup, h2] at h
      simp [annInsert, h2, ih h]

theorem applyAnns_lookup (clusters : List String) (anns : Annotations) (k : String) :
    annLookup (applyClusterSyncerAnnotationsToObject anns clusters) k =
      if ∃ c ∈ clusters, syncKey c = k then some "True" else annLookup anns k := by
  induction clusters generalizing anns with
  | nil => simp [applyClusterSyncerAnnotationsToObject]
  | cons c rest ih =>
    have hstep : applyClusterSyncerAnnotationsToObject anns (c :: rest) =
        applyClusterSyncerAnnotationsToObject (annInsert anns (syncKey c) "True") rest := rfl
    rw [hstep, ih]
    by_cases hk : syncKey c = k
    · subst hk
      by_cases hr : ∃ c2 ∈ rest, syncKey c2 = syncKey c
      · simp [hr]
      · simp [hr, annLookup_annInsert_self]
    · by_cases hr : ∃ c2 ∈ rest, syncKey c2 = k
      · simp [hr, fun (c2 : String) => hk]
      · have : ¬ ∃ c2 ∈ c :: rest, syncKey c2 = k := by
          rintro ⟨c2, hc2, he⟩
          rcases List.mem_cons.mp hc2 with h1 | h1
          · exact hk (h1 ▸ he)
          · exact hr ⟨c2, h1, he⟩
        simp only [hr, if_false, this, annLookup_annInsert_ne anns _ _ _ (fun hh => hk hh.symm)]

theorem applyAnns_id_of_lookup (clusters : List String) (anns : Annotations)
    (h : ∀ c ∈ clusters, annLookup anns (syncKey c) = some "True") :
    applyClusterSyncerAnnotationsToObject anns clusters = anns := by
  induction clusters generalizing anns with
  | nil => rfl
  | cons c rest ih =>
    have h1 : annInsert anns (syncKey c) "True" = anns :=
      annInsert_of_lookup_eq _ _ _ (h c (List.mem_cons_self c rest))
    have hstep : applyClusterSyncerAnnotationsToObject anns (c :: rest) =
        applyClusterSyncerAnnotationsToObject (annInsert anns (syncKey c) "True") rest := rfl
    rw [hstep, h1]
    exact ih anns (fun c2 hc2 => h c2 (List.mem_cons_of_mem c hc2))

/-! ## Claim C5: cluster-sync annotations -/

/-- C5 counterexample: the claim says the annotation value written for a
selected cluster is the string "true"; the source writes "True" (capital
T). At the concrete input of an empty annotation map and cluster list
[c1], the written value is "True" and not "true". -/
theorem sync_annotations_value_cex :
    annLookup (applyClusterSyncerAnnotationsToObject [] ["c1"]) (syncKey "c1") = some "True" ∧
    annLookup (applyClusterSyncerAnnotationsToObject [] ["c1"]) (syncKey "c1") ≠ some "true" := by
  constructor
  · rfl
  · decide

/-- C5 amended: applyClusterSyncerAnnotationsToObject sets the annotation
clustersync.kuadrant.io/cluster-id to the value "True" for each listed
cluster, leaves every other annotation key unchanged, and a second
application with the same cluster list produces the same annotation map
(idempotence). -/
theorem sync_annotations_apply_correct (anns : Annotations) (clusters : List String) :
    (∀ c ∈ clusters,
      annLookup (applyClusterSyncerAnnotationsToObject anns clusters) (syncKey c) = some "True") ∧
    (∀ k, (∀ c ∈ clusters, syncKey c ≠ k) →
      annLookup (applyClusterSyncerAnnotationsToObject anns clusters) k = annLookup anns k) ∧
    applyClusterSyncerAnnotationsToObject
        (applyClusterSyncerAnnotationsToObject anns clusters) clusters =
      applyClusterSyncerAnnotationsToObject anns clusters := by
  refine ⟨?_, ?_, ?_⟩
  · intro c hc
    rw [applyAnns_lookup]
    have hex : ∃ c2 ∈ clusters, syncKey c2 = syncKey c := ⟨c, hc, rfl⟩
    rw [if_pos hex]
  · intro k hk
    rw [applyAnns_lookup]
    have hno : ¬ ∃ c ∈ clusters, syncKey c = k := by
      rintro ⟨c, hc, he⟩
      exact hk c hc he
    rw [if_neg hno]
  · apply applyAnns_id_of_lookup
    intro c hc
    rw [applyAnns_lookup]
    have hex : ∃ c2 ∈ clusters, syncKey c2 = syncKey c := ⟨c, hc, rfl⟩
    rw [if_pos hex]

/-- C5 amended witness at a concrete annotation map and cluster list. -/
theorem sync_annotations_apply_correct_witness :
    annLookup (applyClusterSyncerAnnotationsToObject [("k8s.io/x", "y")] ["c1"]) (syncKey "c1") =
      some "True" ∧
    annLookup (applyClusterSyncerAnnotationsToObject [("k8s.io/x", "y")] ["c1"]) "k8s.io/x" =
      some "y" ∧
    applyClusterSyncerAnnotationsToObject
        (applyClusterSyncerAnnotationsToObject [("k8s.io/x", "y")] ["c1"]) ["c1"] =
      applyClusterSyncerAnnotationsToObject [("k8s.io/x", "y")] ["c1"] := by
  refine ⟨(sync_annotations_apply_correct [("k8s.io/x", "y")] ["c1"]).1 "c1" (by decide), ?_, ?_⟩
  · rw [(sync_annotations_apply_correct [("k8s.io/x", "y")] ["c1"]).2.1 "k8s.io/x" (by decide)]
    rfl
  · exact (sync_annotations_apply_correct [("k8s.io/x", "y")] ["c1"]).2.2

/-! ## Claim C9: AddManagedHost on a Gateway -/

/-- C9 counterexample: the claim says AddManagedHost fails with an
Unsupported error; at a concrete gateway and host, the source returns a
nil error (and leaves the gateway unchanged), so no error at all is
produced. -/
theorem addManagedHost_returns_nil_cex :
    (c9Gw.addManagedHost "app.example.com").1 = none ∧
    (c9Gw.addManagedHost "app.example.com").2 = c9Gw :=
  ⟨rfl, rfl⟩

/-- C9 amended: AddManagedHost on a Gateway returns a nil error (it is
simply not implemented, not a failure) and leaves the Gateway unchanged. -/
theorem addManagedHost_no_error_no_change (g : Gateway) (h : String) :
    g.addManagedHost h = (none, g) :=
  rfl

/-! ## Claim C7: RemoveTLS -/

/-- C7: the claim says RemoveTLS clears the TLS block of every listener
whose hostname is in the list. The source loop mutates a by-value copy of
each listener, so nothing is cleared: at the failing input (one listener
on app.example.com with a TLS block, RemoveTLS applied to exactly that
host) the gateway is returned unchanged and the matching listener still
carries its TLS block. -/
theorem removeTLS_noop_at_failing_input :
    Gateway.removeTLS c7Gw ["app.example.com"] = c7Gw ∧
    ∃ l ∈ (Gateway.removeTLS c7Gw ["app.example.com"]).spec.listeners,
      l.hostname = some "app.example.com" ∧ l.tls ≠ none := by
  refine ⟨rfl, ?_⟩
  refine ⟨_, List.mem_cons_self _ _, rfl, ?_⟩
  decide

/-! ## Lemmas on zone choice and the reconcile loops -/

theorem chooseZone_first_default (zones : List Zone)
    (h : ∃ z ∈ zones, z.isDefault = true) :
    (chooseZone zones).isDefault = true ∧
    ∃ pre post, zones = pre ++ chooseZone zones :: post ∧ ∀ z ∈ pre, z.isDefault = false := by
  induction zones with
  | nil => simp at h
  | cons z rest ih =>
    by_cases hz : z.isDefault = true
    · refine ⟨by simp [chooseZone, hz], [], rest, by simp [chooseZone, hz], by simp⟩
    · have hz2 : z.isDefault = false := by
        cases hb : z.isDefault
        · rfl
        · exact absurd hb hz
      have hrest : ∃ z2 ∈ rest, z2.isDefault = true := by
        obtain ⟨z2, hm, hd⟩ := h
        rcases List.mem_cons.mp hm with h1 | h1
        · exact absurd (h1 ▸ hd) hz
        · exact ⟨z2, h1, hd⟩
      obtain ⟨hd, pre, post, hsplit, hpre⟩ := ih hrest
      have hch : chooseZone (z :: rest) = chooseZone rest := by
        rw [show chooseZone (z :: rest) = if z.isDefault = true then z else chooseZone rest from rfl,
          if_neg (by simp [hz2])]
      refine ⟨hch ▸ hd, z :: pre, post, ?_, ?_⟩
      · rw [hch, List.cons_append]
        exact congrArg (List.cons z) hsplit
      · intro z2 hm
        rcases List.mem_cons.mp hm with h1 | h1
        · exact h1 ▸ hz2
        · exact hpre z2 h1

theorem chooseZone_zero_of_no_default (zones : List Zone)
    (h : ∀ z ∈ zones, z.isDefault = false) :
    chooseZone zones = zeroZone := by
  induction zones with
  | nil => rfl
  | cons z rest ih =>
    have hz := h z (List.mem_cons_self z rest)
    rw [show chooseZone (z :: rest) = if z.isDefault = true then z else chooseZone rest from rfl,
      if_neg (by simp [hz])]
    exact ih (fun z2 hm => h z2 (List.mem_cons_of_mem z hm))

/-- Effects added by the certificate loop on top of the incoming trace
are only EnsureCertificate calls and secret updates. -/
theorem certLoop_effects_mem (env : Env) (clusters : List String) :
    ∀ (hosts : List String) (g : Gateway) (effs : List Effect)
      (r : RecOut ⊕ (Gateway × List Effect)),
      certLoop env clusters hosts g effs = some r →
      ∀ e, e ∈ (match r with | Sum.inl out => out.effects | Sum.inr (_, es) => es) →
        e ∈ effs ∨ (∃ h, e = Effect.ensureCert h) ∨ (∃ n, e = Effect.updateSecret n) := by
  intro hosts
  induction hosts with
  | nil =>
    intro g effs r hr e he
    simp only [certLoop] at hr
    cases hr
    exact Or.inl he
  | cons host rest ih =>
    intro g effs r hr e he
    simp only [certLoop] at hr
    split at hr
    · cases hr
      rcases List.mem_append.mp he with h1 | h1
      · exact Or.inl h1
      · exact Or.inr (Or.inl ⟨host, List.mem_singleton.mp h1⟩)
    · split at hr
      · cases hr
        rcases List.mem_append.mp he with h1 | h1
        · exact Or.inl h1
        · exact Or.inr (Or.inl ⟨host, List.mem_singleton.mp h1⟩)
      · cases hr
        rcases List.mem_append.mp he with h1 | h1
        · exact Or.inl h1
        · exact Or.inr (Or.inl ⟨host, List.mem_singleton.mp h1⟩)
      · rename_i s hs
        split at hr
        · exact absurd hr (by simp)
        · rename_i g2 hA
          have hmem := ih g2 _ r hr e he
          rcases hmem with h1 | h1 | h1
          · split at h1
            · rcases List.mem_append.mp h1 with h2 | h2
              · rcases List.mem_append.mp h2 with h3 | h3
                · exact Or.inl h3
                · exact Or.inr (Or.inl ⟨host, List.mem_singleton.mp h3⟩)
              · exact Or.inr (Or.inr ⟨s.secName, List.mem_singleton.mp h2⟩)
            · rcases List.mem_append.mp h1 with h2 | h2
              · exact Or.inl h2
              · exact Or.inr (Or.inl ⟨host, List.mem_singleton.mp h2⟩)
          · exact Or.inr (Or.inl h1)
          · exact Or.inr (Or.inr h1)

/-- Effects added by the registration loop on top of the incoming trace
are only RegisterHost calls, each with the environment host key and the
zone chosen from the managed zones (independently of the host). -/
theorem registerLoop_effects_mem (env : Env) :
    ∀ (hosts : List String) (effs : List Effect),
      ∀ e ∈ (registerLoop env hosts effs).1,
        e ∈ effs ∨ ∃ h, e = Effect.registerHost h env.hostKey (chooseZone env.zones).dnsZone := by
  intro hosts
  induction hosts with
  | nil => intro effs e he; exact Or.inl he
  | cons host rest ih =>
    intro effs e he
    simp only [registerLoop] at he
    by_cases hok : env.registerOk host
    · rw [if_pos hok] at he
      rcases ih _ e he with h1 | h1
      · rcases List.mem_append.mp h1 with h2 | h2
        · exact Or.inl h2
        · exact Or.inr ⟨host, List.mem_singleton.mp h2⟩
      · exact Or.inr h1
    · rw [if_neg hok] at he
      rcases List.mem_append.mp he with h1 | h1
      · exact Or.inl h1
      · exact Or.inr ⟨host, List.mem_singleton.mp h1⟩

theorem mem_of_mem_iteAppend {c : Prop} [Decidable c] {l : List Effect} {x e : Effect}
    (h : e ∈ (if c then l ++ [x] else l)) : e ∈ l ∨ e = x := by
  split at h
  · rcases List.mem_append.mp h with h1 | h1
    · exact Or.inl h1
    · exact Or.inr (List.mem_singleton.mp h1)
  · exact Or.inl h

theorem mem_of_mem_iteSingleton {c : Prop} [Decidable c] {x e : Effect}
    (h : e ∈ (if c then [x] else [])) : e = x := by
  split at h
  · exact List.mem_singleton.mp h
  · exact absurd h (List.not_mem_nil e)

/-- Classification of every effect a reconcile pass can emit: status
updates only carry conditions built in this pass (observed generation of
the fetched gateway, transition time equal to the clock of this pass);
host registrations always use the environment host key and the zone the
default-scan chose; the rest are certificate, secret, endpoint and
gateway-update calls. -/
theorem reconcile_effects_classify (previous : Gateway) (env : Env) (out : RecOut)
    (h : reconcile previous env = some out) :
    ∀ e ∈ out.effects,
      (∃ conds, e = Effect.statusUpdate conds ∧
        ∀ c ∈ conds, c.observedGeneration = previous.generation ∧
          c.lastTransitionTime = env.now) ∨
      (∃ hst, e = Effect.ensureCert hst) ∨
      (∃ n, e = Effect.updateSecret n) ∨
      (∃ hst, e = Effect.registerHost hst env.hostKey (chooseZone env.zones).dnsZone) ∨
      e = Effect.addEndpoints ∨ e = Effect.updateGateway := by
  by_cases hdel : isDeleting previous.deletionTs = true
  · rw [reconcile, if_pos hdel] at h
    cases h
    intro e he
    exact absurd he (List.not_mem_nil e)
  · by_cases hcls : env.classExists = false
    · rw [reconcile, if_neg hdel, if_pos hcls] at h
      cases h
      intro e he
      exact absurd he (List.not_mem_nil e)
    · by_cases hlen : (selectClusters previous).length > 0
      · rw [reconcile, if_neg hdel, if_neg hcls] at h
        simp only [if_pos hlen] at h
        set gateway := setConditions previous
          [mkAcceptedCondition env.now env.controllerName previous.generation,
           mkProgrammedPending env.now previous.generation] with hgw
        set effs0 : List Effect :=
          if gateway.status ≠ previous.status
          then [Effect.statusUpdate gateway.status.conditions] else [] with heffs0
        have heffs0mem : ∀ e ∈ effs0,
            (∃ conds, e = Effect.statusUpdate conds ∧
              ∀ c ∈ conds, c.observedGeneration = previous.generation ∧
                c.lastTransitionTime = env.now) := by
          intro e he
          have hx := mem_of_mem_iteSingleton he
          refine ⟨gateway.status.conditions, hx, ?_⟩
          intro c hc
          rw [hgw] at hc
          simp only [setConditions] at hc
          rcases List.mem_cons.mp hc with h1 | h1
          · subst h1
            exact ⟨rfl, rfl⟩
          · rcases List.mem_cons.mp h1 with h2 | h2
            · subst h2
              exact ⟨rfl, rfl⟩
            · exact absurd h2 (List.not_mem_nil c)
        split at h
        · exact absurd h (by simp)
        · rename_i hosts hh
          split at h
          · exact absurd h (by simp)
          · rename_i out2 hcl
            have hclmem := certLoop_effects_mem env (selectClusters previous) hosts gateway effs0
              (Sum.inl out2) hcl
            cases h
            intro e he
            rcases hclmem e he with h1 | h1 | h1
            · exact Or.inl (heffs0mem e h1)
            · exact Or.inr (Or.inl h1)
            · exact Or.inr (Or.inr (Or.inl h1))
          · rename_i g2 effs2 hcl
            have hclmem := certLoop_effects_mem env (selectClusters previous) hosts gateway effs0
              (Sum.inr (g2, effs2)) hcl
            have hmem2 : ∀ e ∈ effs2,
                (∃ conds, e = Effect.statusUpdate conds ∧
                  ∀ c ∈ conds, c.observedGeneration = previous.generation ∧
                    c.lastTransitionTime = env.now) ∨
                (∃ hst, e = Effect.ensureCert hst) ∨
                (∃ n, e = Effect.updateSecret n) := by
              intro e he
              rcases hclmem e he with h1 | h1 | h1
              · exact Or.inl (heffs0mem e h1)
              · exact Or.inr (Or.inl h1)
              · exact Or.inr (Or.inr h1)
            split at h
            · rename_i effs3 msg hrl
              have hmem3 : ∀ e ∈ effs3,
                  (∃ conds, e = Effect.statusUpdate conds ∧
                    ∀ c ∈ conds, c.observedGeneration = previous.generation ∧
                      c.lastTransitionTime = env.now) ∨
                  (∃ hst, e = Effect.ensureCert hst) ∨
                  (∃ n, e = Effect.updateSecret n) ∨
                  (∃ hst, e = Effect.registerHost hst env.hostKey
                    (chooseZone env.zones).dnsZone) := by
                intro e he
                have he2 : e ∈ (registerLoop env hosts effs2).1 := by rw [hrl]; exact he
                rcases registerLoop_effects_mem env hosts effs2 e he2 with h1 | h1
                · rcases hmem2 e h1 with h2 | h2 | h2
                  · exact Or.inl h2
                  · exact Or.inr (Or.inl h2)
                  · exact Or.inr (Or.inr (Or.inl h2))
                · exact Or.inr (Or.inr (Or.inr h1))
              cases h
              intro e he
              rcases hmem3 e he with h1 | h1 | h1 | h1
              · exact Or.inl h1
              · exact Or.inr (Or.inl h1)
              · exact Or.inr (Or.inr (Or.inl h1))
              · exact Or.inr (Or.inr (Or.inr (Or.inl h1)))
            · rename_i effs3 hrl
              have hmem3 : ∀ e ∈ effs3,
                  (∃ conds, e = Effect.statusUpdate conds ∧
                    ∀ c ∈ conds, c.observedGeneration = previous.generation ∧
                      c.lastTransitionTime = env.now) ∨
                  (∃ hst, e = Effect.ensureCert hst) ∨
                  (∃ n, e = Effect.updateSecret n) ∨
                  (∃ hst, e = Effect.registerHost hst env.hostKey
                    (chooseZone env.zones).dnsZone) := by
                intro e he
                have he2 : e ∈ (registerLoop env hosts effs2).1 := by rw [hrl]; exact he
                rcases registerLoop_effects_mem env hosts effs2 e he2 with h1 | h1
                · rcases hmem2 e h1 with h2 | h2 | h2
                  · exact Or.inl h2
                  · exact Or.inr (Or.inl h2)
                  · exact Or.inr (Or.inr (Or.inl h2))
                · exact Or.inr (Or.inr (Or.inr h1))
              by_cases hep : env.endpointsOk = false
              · rw [if_pos hep] at h
                cases h
                intro e he
                rcases List.mem_append.mp he with h1 | h1
                · rcases hmem3 e h1 with h2 | h2 | h2 | h2
                  · exact Or.inl h2
                  · exact Or.inr (Or.inl h2)
                  · exact Or.inr (Or.inr (Or.inl h2))
                  · exact Or.inr (Or.inr (Or.inr (Or.inl h2)))
                · exact Or.inr (Or.inr (Or.inr (Or.inr
                    (Or.inl (List.mem_singleton.mp h1)))))
              · rw [if_neg hep] at h
                cases h
                intro e he
                rcases mem_of_mem_iteAppend he with h5 | h5
                · rcases mem_of_mem_iteAppend h5 with h6 | h6
                  · rcases List.mem_append.mp h6 with h7 | h7
                    · rcases hmem3 e h7 with h8 | h8 | h8 | h8
                      · exact Or.inl h8
                      · exact Or.inr (Or.inl h8)
                      · exact Or.inr (Or.inr (Or.inl h8))
                      · exact Or.inr (Or.inr (Or.inr (Or.inl h8)))
                    · exact Or.inr (Or.inr (Or.inr (Or.inr
                        (Or.inl (List.mem_singleton.mp h7)))))
                  · exact Or.inr (Or.inr (Or.inr (Or.inr (Or.inr h6))))
                · refine Or.inl ⟨_, h5, ?_⟩
                  intro c hc
                  simp only [setConditions] at hc
                  rcases List.mem_cons.mp hc with h1 | h1
                  · subst h1
                    exact ⟨rfl, rfl⟩
                  · rcases List.mem_cons.mp h1 with h2 | h2
                    · subst h2
                      exact ⟨rfl, rfl⟩
                    · exact absurd h2 (List.not_mem_nil c)
      · rw [reconcile, if_neg hdel, if_neg hcls] at h
        simp only [if_neg hlen] at h
        cases h
        intro e he
        have hx := mem_of_mem_iteSingleton he
        refine Or.inl ⟨_, hx, ?_⟩
        intro c hc
        simp only [setConditions] at hc
        rcases List.mem_cons.mp hc with h1 | h1
        · subst h1
          exact ⟨rfl, rfl⟩
        · rcases List.mem_cons.mp h1 with h2 | h2
          · subst h2
            exact ⟨rfl, rfl⟩
          · exact absurd h2 (List.not_mem_nil c)

/-! ## Claim C2: zone selection -/

/-- C2 counterexample: with managed zones example.com (default=true) and
eu.example.com (default=false), the claim says registering host
svc.eu.example.com picks eu.example.com (longest suffix). In the concrete
pass the RegisterHost call for that host carries the handle of
example.com, and no call carries the handle of eu.example.com, while the
specification-side longest-suffix resolution yields eu.example.com. -/
theorem zone_selection_longest_suffix_cex :
    reconcile c2Gw c2Env = some c2Out ∧
    Effect.registerHost "svc.eu.example.com" "hk" { zoneID := "mz-example" } ∈ c2Out.effects ∧
    (∀ e ∈ c2Out.effects,
      e ≠ Effect.registerHost "svc.eu.example.com" "hk" { zoneID := "mz-eu" }) ∧
    resolveZoneSpecModel "svc.eu.example.com" c2Env.zones = some zoneEU ∧
    zoneEU.rootDomain = "eu.example.com" ∧ zoneEU.dnsZone = { zoneID := "mz-eu" } := by
  refine ⟨rfl, ?_, ?_, ?_, rfl, rfl⟩
  · decide
  · decide
  · rfl

/-- C2 amended: the zone used by every host registration of a reconcile
pass is independent of the host: it is the first zone in the managed-zone
list whose default flag is set (the zero zone with empty identifier when
no zone is default); root-domain suffix matching plays no part. -/
theorem zone_selection_first_default (previous : Gateway) (env : Env) (out : RecOut)
    (h : reconcile previous env = some out) :
    (∀ host hk dz, Effect.registerHost host hk dz ∈ out.effects →
      hk = env.hostKey ∧ dz = (chooseZone env.zones).dnsZone) ∧
    ((∃ z ∈ env.zones, z.isDefault = true) →
      (chooseZone env.zones).isDefault = true ∧
      ∃ pre post, env.zones = pre ++ chooseZone env.zones :: post ∧
        ∀ z ∈ pre, z.isDefault = false) ∧
    ((∀ z ∈ env.zones, z.isDefault = false) → chooseZone env.zones = zeroZone) := by
  refine ⟨?_, fun hd => chooseZone_first_default env.zones hd,
          fun hn => chooseZone_zero_of_no_default env.zones hn⟩
  intro host hk dz he
  rcases reconcile_effects_classify previous env out h _ he with h1 | h1 | h1 | h1 | h1 | h1
  · obtain ⟨conds, hc, _⟩ := h1
    exact absurd hc (by simp)
  · obtain ⟨hst, hc⟩ := h1
    exact absurd hc (by simp)
  · obtain ⟨n, hc⟩ := h1
    exact absurd hc (by simp)
  · obtain ⟨hst, hc⟩ := h1
    refine ⟨?_, ?_⟩
    · cases hc
      rfl
    · cases hc
      rfl
  · exact absurd h1 (by simp)
  · exact absurd h1 (by simp)

/-- C2 amended witness: in the concrete pass over c2Gw the registration
effect for svc.eu.example.com uses the host key and the default zone of
the environment. -/
theorem zone_selection_first_default_witness :
    "hk" = c2Env.hostKey ∧
    DNSZone.mk "mz-example" = (chooseZone c2Env.zones).dnsZone ∧
    (chooseZone c2Env.zones).isDefault = true := by
  have h := zone_selection_first_default c2Gw c2Env c2Out rfl
  refine ⟨?_, ?_, ?_⟩
  · exact (h.1 "svc.eu.example.com" "hk" { zoneID := "mz-example" } (by decide)).1
  · exact (h.1 "svc.eu.example.com" "hk" { zoneID := "mz-example" } (by decide)).2
  · exact (h.2.1 ⟨zoneExample, by decide, rfl⟩).1

/-! ## Claim C6: condition bookkeeping -/

/-- C6 counterexample: two consecutive passes over the same gateway at
clock 1 and clock 2 both publish the Programmed condition with identical
Status and Reason, yet the LastTransitionTime changes from 1 to 2
(the source stamps metav1.Now() on every rebuilt condition and the
status-difference check therefore fires on the timestamps alone). -/
theorem condition_transition_time_cex :
    reconcile c1Gw c6Env1 = some c6Out1 ∧
    reconcile c6Out1.gw c6Env2 = some c6Out2 ∧
    Effect.statusUpdate c6Out2.gw.status.conditions ∈ c6Out2.effects ∧
    (∃ c1 ∈ c6Out1.gw.status.conditions, ∃ c2 ∈ c6Out2.gw.status.conditions,
      c1.condType = "Programmed" ∧ c2.condType = "Programmed" ∧
      c2.status = c1.status ∧ c2.reason = c1.reason ∧
      c2.lastTransitionTime ≠ c1.lastTransitionTime) := by
  refine ⟨rfl, rfl, ?_, ?_⟩
  · decide
  · decide

/-- C6 amended: every condition published in a reconcile pass carries the
generation of the gateway observed in that pass as ObservedGeneration,
and carries the clock of that pass as LastTransitionTime (so the
transition time moves on every published update whenever the clock moved,
even when Status and Reason are unchanged). -/
theorem condition_observed_generation_and_time (previous : Gateway) (env : Env) (out : RecOut)
    (h : reconcile previous env = some out) :
    ∀ conds, Effect.statusUpdate conds ∈ out.effects →
      ∀ c ∈ conds, c.observedGeneration = previous.generation ∧
        c.lastTransitionTime = env.now := by
  intro conds hm c hc
  rcases reconcile_effects_classify previous env out h _ hm with h1 | h1 | h1 | h1 | h1 | h1
  · obtain ⟨conds2, heq, hall⟩ := h1
    have h2 : conds = conds2 := by injection heq
    subst h2
    exact hall c hc
  · obtain ⟨hst, heq⟩ := h1
    exact absurd heq (by simp)
  · obtain ⟨n, heq⟩ := h1
    exact absurd heq (by simp)
  · obtain ⟨hst, heq⟩ := h1
    exact absurd heq (by simp)
  · exact absurd h1 (by simp)
  · exact absurd h1 (by simp)

/-- C6 amended witness: in the concrete first pass over c1Gw, the
published Programmed condition carries the observed generation and the
clock of the pass. -/
theorem condition_observed_generation_and_time_witness :
    (mkProgrammedNoClusters c6Env1.now c1Gw.generation).observedGeneration = c1Gw.generation ∧
    (mkProgrammedNoClusters c6Env1.now c1Gw.generation).lastTransitionTime = c6Env1.now :=
  condition_observed_generation_and_time c1Gw c6Env1 c6Out1 rfl
    c6Out1.gw.status.conditions (by decide)
    (mkProgrammedNoClusters c6Env1.now c1Gw.generation) (by decide)

/-! ## Lemmas on GetHosts and AddTLS -/

theorem getHostsLoop_none (ls : List Listener) : getHostsLoop none ls = none := by
  induction ls with
  | nil => rfl
  | cons l rest ih =>
    cases hl : l.hostname <;> simp only [getHostsLoop, hl] <;> exact ih

theorem getHostsLoop_some (ls : List Listener) :
    ∀ acc : List String, (∀ l ∈ ls, l.hostname.isSome = true) →
      getHostsLoop (some acc) ls = some (dedupLoop acc (ls.filterMap Listener.hostname)) := by
  induction ls with
  | nil => intro acc _; rfl
  | cons l rest ih =>
    intro acc hall
    have hl : l.hostname.isSome = true := hall l (List.mem_cons_self l rest)
    cases hh : l.hostname with
    | none => rw [hh] at hl; cases hl
    | some h =>
      simp only [getHostsLoop, hh, List.filterMap_cons, dedupLoop]
      exact ih _ (fun x hx => hall x (List.mem_cons_of_mem l hx))

theorem getHostsLoop_missing (ls : List Listener) :
    ∀ acc : List String, (∃ l ∈ ls, l.hostname = none) →
      getHostsLoop (some acc) ls = none := by
  induction ls with
  | nil =>
    intro acc h
    simp at h
  | cons l rest ih =>
    intro acc h
    cases hh : l.hostname with
    | none =>
      simp only [getHostsLoop, hh]
      exact getHostsLoop_none rest
    | some h2 =>
      have hrest : ∃ l2 ∈ rest, l2.hostname = none := by
        obtain ⟨l2, hm, hn⟩ := h
        rcases List.mem_cons.mp hm with h1 | h1
        · subst h1
          rw [hh] at hn
          cases hn
        · exact ⟨l2, h1, hn⟩
      simp only [getHostsLoop, hh]
      exact ih _ hrest

theorem dedupLoop_nodup (xs : List String) :
    ∀ acc : List String, acc.Nodup → (dedupLoop acc xs).Nodup := by
  induction xs with
  | nil => intro acc h; exact h
  | cons x rest ih =>
    intro acc h
    simp only [dedupLoop]
    by_cases hx : x ∈ acc
    · rw [if_pos hx]
      exact ih acc h
    · rw [if_neg hx]
      refine ih _ ?_
      simp [List.nodup_append, h, hx]

theorem dedupLoop_mem (xs : List String) :
    ∀ (acc : List String) (y : String), y ∈ dedupLoop acc xs ↔ y ∈ acc ∨ y ∈ xs := by
  induction xs with
  | nil => intro acc y; simp [dedupLoop]
  | cons x rest ih =>
    intro acc y
    simp only [dedupLoop]
    by_cases hx : x ∈ acc
    · rw [if_pos hx, ih]
      constructor
      · rintro (h1 | h1)
        · exact Or.inl h1
        · exact Or.inr (List.mem_cons_of_mem x h1)
      · rintro (h1 | h1)
        · exact Or.inl h1
        · rcases List.mem_cons.mp h1 with h2 | h2
          · exact Or.inl (h2 ▸ hx)
          · exact Or.inr h2
    · rw [if_neg hx, ih]
      constructor
      · rintro (h1 | h1)
        · rcases List.mem_append.mp h1 with h2 | h2
          · exact Or.inl h2
          · exact Or.inr (List.mem_cons.mpr (Or.inl (List.mem_singleton.mp h2)))
        · exact Or.inr (List.mem_cons_of_mem x h1)
      · rintro (h1 | h1)
        · exact Or.inl (List.mem_append.mpr (Or.inl h1))
        · rcases List.mem_cons.mp h1 with h2 | h2
          · exact Or.inl (List.mem_append.mpr (Or.inr (List.mem_singleton.mpr h2)))
          · exact Or.inr h2

theorem getHosts_some_of_set (g : Gateway) (hg : hostnamesSetB g = true) :
    g.getHosts? = some (dedupFirst (g.spec.listeners.filterMap Listener.hostname)) := by
  have hall : ∀ l ∈ g.spec.listeners, l.hostname.isSome = true :=
    List.all_eq_true.mp hg
  exact getHostsLoop_some g.spec.listeners [] hall

theorem getHosts_none_of_not_set (g : Gateway) (hg : hostnamesSetB g = false) :
    g.getHosts? = none := by
  have hex : ∃ l ∈ g.spec.listeners, l.hostname = none := by
    obtain ⟨l, hm, hp⟩ := List.all_eq_false.mp hg
    refine ⟨l, hm, ?_⟩
    cases hh : l.hostname
    · rfl
    · rw [hh] at hp
      simp at hp
  exact getHostsLoop_missing g.spec.listeners [] hex

theorem hostnamesSetB_of_getHosts_some (g : Gateway) (hosts : List String)
    (h : g.getHosts? = some hosts) : hostnamesSetB g = true := by
  cases hb : hostnamesSetB g
  · rw [getHosts_none_of_not_set g hb] at h
    cases h
  · rfl

theorem addTLSGo_hostname (gwNs host sn : String) (l : Listener) :
    (addTLSGo gwNs host sn l).hostname = l.hostname := by
  simp only [addTLSGo]
  split <;> rfl

theorem addTLSGo_listenerName (gwNs host sn : String) (l : Listener) :
    (addTLSGo gwNs host sn l).listenerName = l.listenerName := by
  simp only [addTLSGo]
  split <;> rfl

theorem addTLSStep_eq_go (gwNs host sn : String) (l : Listener)
    (h : l.hostname.isSome = true) :
    addTLSStep gwNs host sn l = some (addTLSGo gwNs host sn l) := by
  cases hl : l.hostname with
  | none => rw [hl] at h; cases h
  | some hh =>
    have hcond : (l.hostname = some host) = (hh = host) := by
      rw [hl]
      simp
    simp only [addTLSStep, hl, addTLSGo, hcond]
    simp

theorem mapOpt_eq_map (gwNs host sn : String) :
    ∀ ls : List Listener, (∀ l ∈ ls, l.hostname.isSome = true) →
      mapOpt (addTLSStep gwNs host sn) ls = some (ls.map (addTLSGo gwNs host sn)) := by
  intro ls
  induction ls with
  | nil => intro _; rfl
  | cons l rest ih =>
    intro hall
    have h1 := addTLSStep_eq_go gwNs host sn l (hall l (List.mem_cons_self l rest))
    have h2 := ih (fun x hx => hall x (List.mem_cons_of_mem l hx))
    simp only [mapOpt, h1, h2, List.map_cons]

theorem addTLS_eq_some (g : Gateway) (host sn : String) (hg : hostnamesSetB g = true) :
    g.addTLS? host sn = some { g with spec := { g.spec with
      listeners := g.spec.listeners.map (addTLSGo g.ns host sn) } } := by
  have hall : ∀ l ∈ g.spec.listeners, l.hostname.isSome = true :=
    List.all_eq_true.mp hg
  simp only [Gateway.addTLS?, mapOpt_eq_map g.ns host sn g.spec.listeners hall]

theorem hostnamesSetB_map_addTLSGo (g : Gateway) (host sn : String) :
    hostnamesSetB { g with spec := { g.spec with
      listeners := g.spec.listeners.map (addTLSGo g.ns host sn) } } = hostnamesSetB g := by
  simp only [hostnamesSetB, List.all_map]
  congr 1
  funext l
  simp only [Function.comp, addTLSGo_hostname]

/-- When every EnsureCertificate call succeeds (or reports AlreadyExists),
no GetCertificateSecret call hard-fails and at least one host secret is
NotFound, the certificate loop returns early with a 10 second requeue and
no error, leaving the gateway status as it entered the loop. -/
theorem certLoop_notFound (env : Env) (clusters : List String) :
    ∀ (hosts : List String) (g : Gateway) (effs : List Effect),
      hostnamesSetB g = true →
      (∀ h ∈ hosts, env.ensureRes h ≠ EnsureRes.failed) →
      (∀ h ∈ hosts, env.secretRes h ≠ SecRes.failed) →
      (∃ h ∈ hosts, env.secretRes h = SecRes.notFound) →
      ∃ effs2 g2, certLoop env clusters hosts g effs =
        some (Sum.inl { res := { requeue := true, afterSec := 10 }, err := none,
                        effects := effs2, gw := g2 }) ∧
        g2.status = g.status := by
  intro hosts
  induction hosts with
  | nil =>
    intro g effs _ _ _ hnf
    simp at hnf
  | cons host rest ih =>
    intro g effs hg hens hsec hnf
    cases hE : env.ensureRes host
    case failed => exact absurd hE (hens host (List.mem_cons_self host rest))
    all_goals (
      cases hS : env.secretRes host
      case failed => exact absurd hS (hsec host (List.mem_cons_self host rest))
      case notFound =>
        exact ⟨effs ++ [Effect.ensureCert host], g, by simp only [certLoop, hE, hS], rfl⟩
      case found s =>
        have hnf2 : ∃ h ∈ rest, env.secretRes h = SecRes.notFound := by
          obtain ⟨h2, hm, hh⟩ := hnf
          rcases List.mem_cons.mp hm with h1 | h1
          · subst h1
            rw [hS] at hh
            cases hh
          · exact ⟨h2, h1, hh⟩
        have haddeq := addTLS_eq_some g host s.secName hg
        have hg2set : hostnamesSetB { g with spec := { g.spec with
            listeners := g.spec.listeners.map (addTLSGo g.ns host s.secName) } } = true := by
          rw [hostnamesSetB_map_addTLSGo]
          exact hg
        obtain ⟨effs2, g3, hloop, hstat⟩ := ih _
          (if applyClusterSyncerAnnotationsToObject s.secAnnotations clusters ≠ s.secAnnotations
           then effs ++ [Effect.ensureCert host] ++ [Effect.updateSecret s.secName]
           else effs ++ [Effect.ensureCert host])
          hg2set
          (fun h hm => hens h (List.mem_cons_of_mem host hm))
          (fun h hm => hsec h (List.mem_cons_of_mem host hm)) hnf2
        refine ⟨effs2, g3, ?_, hstat⟩
        simp only [certLoop, hE, hS, haddeq]
        exact hloop)

/-- When the certificate loop of a non-deleting, class-matching pass with
a non-empty cluster selection returns early, the whole pass returns that
early result. -/
theorem reconcile_via_certLoop_inl (previous : Gateway) (env : Env) (hosts : List String)
    (out2 : RecOut)
    (hdel : isDeleting previous.deletionTs = false)
    (hcls : env.classExists = true)
    (hlen : (selectClusters previous).length > 0)
    (hh : previous.getHosts? = some hosts)
    (hcl : certLoop env (selectClusters previous) hosts
        (setConditions previous
          [mkAcceptedCondition env.now env.controllerName previous.generation,
           mkProgrammedPending env.now previous.generation])
        (if (setConditions previous
              [mkAcceptedCondition env.now env.controllerName previous.generation,
               mkProgrammedPending env.now previous.generation]).status ≠ previous.status
         then [Effect.statusUpdate (setConditions previous
              [mkAcceptedCondition env.now env.controllerName previous.generation,
               mkProgrammedPending env.now previous.generation]).status.conditions]
         else []) = some (Sum.inl out2)) :
    reconcile previous env = some out2 := by
  rw [reconcile, if_neg (by simp [hdel]), if_neg (by simp [hcls])]
  simp only [if_pos hlen]
  have hh2 : (setConditions previous
      [mkAcceptedCondition env.now env.controllerName previous.generation,
       mkProgrammedPending env.now previous.generation]).getHosts? = some hosts := hh
  split
  · rename_i heq
    rw [hh2] at heq
    cases heq
  · rename_i hosts2 heq
    rw [hh2] at heq
    injection heq with heq2
    subst heq2
    split
    · rename_i heq3
      rw [hcl] at heq3
      cases heq3
    · rename_i out3 heq3
      rw [hcl] at heq3
      injection heq3 with heq4
      injection heq4 with heq5
      rw [heq5]
    · rename_i g2 effs2 heq3
      rw [hcl] at heq3
      injection heq3 with heq4
      cases heq4

/-! ## Claim C1: empty cluster selection -/

/-- C1: a non-deleting, class-matching pass over a Gateway whose cluster
selection is empty publishes exactly the two conditions Accepted=True and
Programmed=False (reason Pending, message "No clusters match selection"),
returns no error and no requeue, leaves spec and annotations untouched,
and its effect trace contains nothing but status updates: no certificate
operation, no secret write, no host registration, no endpoint write and
no gateway (spec) update. -/
theorem gateway_reconcile_empty_selection (previous : Gateway) (env : Env)
    (hdel : isDeleting previous.deletionTs = false)
    (hcls : env.classExists = true)
    (hsel : selectClusters previous = []) :
    ∃ out, reconcile previous env = some out ∧
      out.err = none ∧
      out.res = { requeue := false, afterSec := 0 } ∧
      out.gw.spec = previous.spec ∧
      out.gw.annotations = previous.annotations ∧
      out.gw.status.conditions =
        [mkAcceptedCondition env.now env.controllerName previous.generation,
         mkProgrammedNoClusters env.now previous.generation] ∧
      (mkAcceptedCondition env.now env.controllerName previous.generation).condType =
        "Accepted" ∧
      (mkAcceptedCondition env.now env.controllerName previous.generation).status =
        CondStatus.condTrue ∧
      (mkProgrammedNoClusters env.now previous.generation).condType = "Programmed" ∧
      (mkProgrammedNoClusters env.now previous.generation).status = CondStatus.condFalse ∧
      (mkProgrammedNoClusters env.now previous.generation).reason = "Pending" ∧
      (mkProgrammedNoClusters env.now previous.generation).message =
        "No clusters match selection" ∧
      (∀ e ∈ out.effects, ∃ conds, e = Effect.statusUpdate conds) := by
  have hlen : ¬ ((selectClusters previous).length > 0) := by
    rw [hsel]
    simp
  rw [reconcile, if_neg (by simp [hdel]), if_neg (by simp [hcls])]
  simp only [if_neg hlen]
  refine ⟨_, rfl, rfl, rfl, rfl, rfl, rfl, rfl, rfl, rfl, rfl, rfl, rfl, ?_⟩
  intro e he
  exact ⟨_, mem_of_mem_iteSingleton he⟩

/-- Environment used to instantiate the empty-selection claim. -/
def c1Env : Env :=
  { now := 7, controllerName := "mctc", classExists := true,
    ensureRes := fun _ => EnsureRes.ok,
    secretRes := fun _ => SecRes.notFound,
    zones := [], hostKey := "hk",
    registerOk := fun _ => true, endpointsOk := true }

/-- C1 witness at the concrete gateway without a selector annotation. -/
theorem gateway_reconcile_empty_selection_witness :
    ∃ out, reconcile c1Gw c1Env = some out ∧
      out.err = none ∧
      out.res = { requeue := false, afterSec := 0 } ∧
      out.gw.spec = c1Gw.spec ∧
      out.gw.annotations = c1Gw.annotations ∧
      out.gw.status.conditions =
        [mkAcceptedCondition c1Env.now c1Env.controllerName c1Gw.generation,
         mkProgrammedNoClusters c1Env.now c1Gw.generation] ∧
      (mkAcceptedCondition c1Env.now c1Env.controllerName c1Gw.generation).condType =
        "Accepted" ∧
      (mkAcceptedCondition c1Env.now c1Env.controllerName c1Gw.generation).status =
        CondStatus.condTrue ∧
      (mkProgrammedNoClusters c1Env.now c1Gw.generation).condType = "Programmed" ∧
      (mkProgrammedNoClusters c1Env.now c1Gw.generation).status = CondStatus.condFalse ∧
      (mkProgrammedNoClusters c1Env.now c1Gw.generation).reason = "Pending" ∧
      (mkProgrammedNoClusters c1Env.now c1Gw.generation).message =
        "No clusters match selection" ∧
      (∀ e ∈ out.effects, ∃ conds, e = Effect.statusUpdate conds) :=
  gateway_reconcile_empty_selection c1Gw c1Env (by decide) (by decide) (by decide)

/-! ## Claim C4: certificate secret NotFound -/

/-- C4: a non-deleting, class-matching pass with a non-empty cluster
selection, in which no certificate call hard-fails and some host secret
is NotFound, publishes Accepted=True together with Programmed=Unknown
(reason Pending, message "Waiting for controller"), returns a requeue
after 10 seconds and returns no error: the NotFound is not propagated. -/
theorem gateway_reconcile_secret_notfound_requeue (previous : Gateway) (env : Env)
    (hosts : List String)
    (hdel : isDeleting previous.deletionTs = false)
    (hcls : env.classExists = true)
    (hsel : selectClusters previous ≠ [])
    (hhosts : previous.getHosts? = some hosts)
    (hens : ∀ h ∈ hosts, env.ensureRes h ≠ EnsureRes.failed)
    (hsec : ∀ h ∈ hosts, env.secretRes h ≠ SecRes.failed)
    (hnf : ∃ h ∈ hosts, env.secretRes h = SecRes.notFound) :
    ∃ out, reconcile previous env = some out ∧
      out.err = none ∧
      out.res = { requeue := true, afterSec := 10 } ∧
      out.gw.status.conditions =
        [mkAcceptedCondition env.now env.controllerName previous.generation,
         mkProgrammedPending env.now previous.generation] ∧
      (mkProgrammedPending env.now previous.generation).condType = "Programmed" ∧
      (mkProgrammedPending env.now previous.generation).status = CondStatus.condUnknown ∧
      (mkProgrammedPending env.now previous.generation).reason = "Pending" ∧
      (mkProgrammedPending env.now previous.generation).message = "Waiting for controller" := by
  have hlen : (selectClusters previous).length > 0 :=
    List.length_pos_iff_ne_nil.mpr hsel
  have hset : hostnamesSetB (setConditions previous
      [mkAcceptedCondition env.now env.controllerName previous.generation,
       mkProgrammedPending env.now previous.generation]) = true :=
    hostnamesSetB_of_getHosts_some previous hosts hhosts
  obtain ⟨effs2, g2, hloop, hstat⟩ := certLoop_notFound env (selectClusters previous) hosts
    (setConditions previous
      [mkAcceptedCondition env.now env.controllerName previous.generation,
       mkProgrammedPending env.now previous.generation])
    (if (setConditions previous
          [mkAcceptedCondition env.now env.controllerName previous.generation,
           mkProgrammedPending env.now previous.generation]).status ≠ previous.status
     then [Effect.statusUpdate (setConditions previous
          [mkAcceptedCondition env.now env.controllerName previous.generation,
           mkProgrammedPending env.now previous.generation]).status.conditions]
     else [])
    hset hens hsec hnf
  refine ⟨_, reconcile_via_certLoop_inl previous env hosts _ hdel hcls hlen hhosts hloop,
    rfl, rfl, ?_, rfl, rfl, rfl, rfl⟩
  show g2.status.conditions =
    [mkAcceptedCondition env.now env.controllerName previous.generation,
     mkProgrammedPending env.now previous.generation]
  rw [hstat]
  rfl

/-- C4 witness: concrete pass in which the only host secret is NotFound. -/
theorem gateway_reconcile_secret_notfound_requeue_witness :
    ∃ out, reconcile c2Gw c6Env1 = some out ∧
      out.err = none ∧
      out.res = { requeue := true, afterSec := 10 } ∧
      out.gw.status.conditions =
        [mkAcceptedCondition c6Env1.now c6Env1.controllerName c2Gw.generation,
         mkProgrammedPending c6Env1.now c2Gw.generation] ∧
      (mkProgrammedPending c6Env1.now c2Gw.generation).condType = "Programmed" ∧
      (mkProgrammedPending c6Env1.now c2Gw.generation).status = CondStatus.condUnknown ∧
      (mkProgrammedPending c6Env1.now c2Gw.generation).reason = "Pending" ∧
      (mkProgrammedPending c6Env1.now c2Gw.generation).message = "Waiting for controller" :=
  gateway_reconcile_secret_notfound_requeue c2Gw c6Env1 ["svc.eu.example.com"]
    (by decide) (by decide) (by decide) (by decide)
    (by intro h _ hc; exact EnsureRes.noConfusion hc)
    (by intro h _ hc; exact SecRes.noConfusion hc)
    ⟨"svc.eu.example.com", by decide, rfl⟩

theorem map_eq_self_of_fix (l : List Listener) (f : Listener → Listener)
    (h : ∀ x ∈ l, f x = x) : l.map f = l := by
  induction l with
  | nil => rfl
  | cons x rest ih =>
    simp only [List.map_cons, h x (List.mem_cons_self x rest)]
    rw [ih (fun y hy => h y (List.mem_cons_of_mem x hy))]

theorem addTLSGo_idem (gwNs host sn : String) (l : Listener) :
    addTLSGo gwNs host sn (addTLSGo gwNs host sn l) = addTLSGo gwNs host sn l := by
  by_cases hl : l.hostname = some host
  · simp [addTLSGo, hl]
  · simp [addTLSGo, hl]

/-! ## Claim C8: AddTLS -/

/-- C8: on a gateway whose listener hostnames are all set (the implicit
precondition of the dereference inside AddTLS), AddTLS succeeds; the
listener count is preserved; pairwise, a listener whose hostname differs
from the host is unchanged and a listener whose hostname equals the host
gets exactly the one-certificate-ref TLS block naming the secret in the
gateway namespace; when no listener matches the gateway is unchanged;
and a second application of the same AddTLS is the identity on the
result (idempotence). -/
theorem addTLS_correct (g : Gateway) (host sn : String) (hg : hostnamesSetB g = true) :
    ∃ g2, g.addTLS? host sn = some g2 ∧
      g2.spec.listeners.length = g.spec.listeners.length ∧
      List.Forall₂ (fun l l2 =>
        (l.hostname ≠ some host → l2 = l) ∧
        (l.hostname = some host → l2 = { l with tls := some { certificateRefs :=
          [{ refName := sn, refNs := some g.ns }] } }))
        g.spec.listeners g2.spec.listeners ∧
      ((∀ l ∈ g.spec.listeners, l.hostname ≠ some host) → g2 = g) ∧
      g2.addTLS? host sn = some g2 := by
  refine ⟨_, addTLS_eq_some g host sn hg, ?_, ?_, ?_, ?_⟩
  · exact List.length_map g.spec.listeners (addTLSGo g.ns host sn)
  · rw [List.forall₂_map_right_iff, List.forall₂_same]
    intro l _
    constructor
    · intro hne
      simp [addTLSGo, hne]
    · intro he
      simp [addTLSGo, he]
  · intro hnone
    have hmap : g.spec.listeners.map (addTLSGo g.ns host sn) = g.spec.listeners := by
      apply map_eq_self_of_fix
      intro x hx
      simp [addTLSGo, hnone x hx]
    simp only [hmap]
  · have hg2 : hostnamesSetB { g with spec := { g.spec with
        listeners := g.spec.listeners.map (addTLSGo g.ns host sn) } } = true := by
      rw [hostnamesSetB_map_addTLSGo]
      exact hg
    rw [addTLS_eq_some _ host sn hg2]
    have hmm : (g.spec.listeners.map (addTLSGo g.ns host sn)).map (addTLSGo g.ns host sn) =
        g.spec.listeners.map (addTLSGo g.ns host sn) := by
      rw [List.map_map]
      apply List.map_congr_left
      intro x _
      exact addTLSGo_idem g.ns host sn x
    simp only [hmm]

/-- C8 witness at a concrete gateway with one matching and one other
listener. -/
theorem addTLS_correct_witness :
    ∃ g2, c10Gw.addTLS? "a.example.com" "a-tls" = some g2 ∧
      g2.spec.listeners.length = c10Gw.spec.listeners.length ∧
      g2.addTLS? "a.example.com" "a-tls" = some g2 := by
  obtain ⟨g2, h1, h2, _, _, h5⟩ := addTLS_correct c10Gw "a.example.com" "a-tls" (by decide)
  exact ⟨g2, h1, h2, h5⟩

/-! ## Claim C10: GetHosts -/

/-- C10: when every listener hostname is non-nil, GetHosts returns the
list of distinct hostnames in order of first occurrence (each exactly
once: the result has no duplicates and contains a hostname exactly when
some listener carries it), and the panic branch is unreachable; when some
listener hostname is nil, the call does not return a value (the Go code
panics on the dereference). -/
theorem getHosts_correct (g : Gateway) :
    (hostnamesSetB g = true →
      g.getHosts? = some (dedupFirst (g.spec.listeners.filterMap Listener.hostname)) ∧
      (dedupFirst (g.spec.listeners.filterMap Listener.hostname)).Nodup ∧
      (∀ h : String, h ∈ dedupFirst (g.spec.listeners.filterMap Listener.hostname) ↔
        some h ∈ g.spec.listeners.map Listener.hostname)) ∧
    (hostnamesSetB g = false → g.getHosts? = none) := by
  constructor
  · intro hg
    refine ⟨getHosts_some_of_set g hg, dedupLoop_nodup _ [] List.nodup_nil, ?_⟩
    intro h
    have hm := dedupLoop_mem (g.spec.listeners.filterMap Listener.hostname) [] h
    rw [dedupFirst, hm]
    simp only [List.not_mem_nil, false_or]
    rw [List.mem_filterMap]
    constructor
    · rintro ⟨l, hl, he⟩
      exact List.mem_map.mpr ⟨l, hl, he⟩
    · intro hmem
      obtain ⟨l, hl, he⟩ := List.mem_map.mp hmem
      exact ⟨l, hl, he⟩
  · exact getHosts_none_of_not_set g

/-- C10 witness: on the concrete gateway with a duplicated hostname the
result keeps first occurrences only. -/
theorem getHosts_correct_witness :
    c10Gw.getHosts? = some (dedupFirst (c10Gw.spec.listeners.filterMap Listener.hostname)) ∧
    (dedupFirst (c10Gw.spec.listeners.filterMap Listener.hostname)).Nodup ∧
    dedupFirst (c10Gw.spec.listeners.filterMap Listener.hostname) =
      ["a.example.com", "b.example.com"] := by
  refine ⟨((getHosts_correct c10Gw).1 (by decide)).1,
          ((getHosts_correct c10Gw).1 (by decide)).2.1, by decide⟩

/-! ## Claim C3: Ingress finalizer safety -/

/-- Effects added by the per-host certificate loop of Handle are only
secret reads, secret copies and TLS attachments: in particular no
finalizer action and no PatchTargets call. -/
theorem ihostLoop_effects_mem (env : IEnv) :
    ∀ (hosts : List String) (effs : List IEffect),
      ∀ e ∈ (ihostLoop env hosts effs).1,
        e ∈ effs ∨ (∃ h, e = IEffect.getSecret h) ∨ (∃ h, e = IEffect.copySecret h) ∨
          (∃ h n, e = IEffect.addTLS h n) := by
  intro hosts
  induction hosts with
  | nil => intro effs e he; exact Or.inl he
  | cons host rest ih =>
    intro effs e he
    simp only [ihostLoop] at he
    cases hS : env.secretRes host
    case failed =>
      rw [hS] at he
      rcases List.mem_append.mp he with h1 | h1
      · exact Or.inl h1
      · exact Or.inr (Or.inl ⟨host, List.mem_singleton.mp h1⟩)
    case notFound =>
      rw [hS] at he
      rcases List.mem_append.mp he with h1 | h1
      · exact Or.inl h1
      · exact Or.inr (Or.inl ⟨host, List.mem_singleton.mp h1⟩)
    case found s =>
      rw [hS] at he
      by_cases hc : env.copyOk host = true
      · simp only [hc, if_true] at he
        rcases ih _ e he with h1 | h1 | h1 | h1
        · rcases List.mem_append.mp h1 with h2 | h2
          · rcases List.mem_append.mp h2 with h3 | h3
            · rcases List.mem_append.mp h3 with h4 | h4
              · exact Or.inl h4
              · exact Or.inr (Or.inl ⟨host, List.mem_singleton.mp h4⟩)
            · exact Or.inr (Or.inr (Or.inl ⟨host, List.mem_singleton.mp h3⟩))
          · exact Or.inr (Or.inr (Or.inr ⟨host, s.secName, List.mem_singleton.mp h2⟩))
        · exact Or.inr (Or.inl h1)
        · exact Or.inr (Or.inr (Or.inl h1))
        · exact Or.inr (Or.inr (Or.inr h1))
      · have hc2 : env.copyOk host = false := by
          cases hb : env.copyOk host
          · rfl
          · exact absurd hb hc
        simp only [hc2, Bool.false_eq_true, if_false] at he
        rcases List.mem_append.mp he with h1 | h1
        · rcases List.mem_append.mp h1 with h2 | h2
          · exact Or.inl h2
          · exact Or.inr (Or.inl ⟨host, List.mem_singleton.mp h2⟩)
        · exact Or.inr (Or.inr (Or.inl ⟨host, List.mem_singleton.mp h1⟩))

/-- C3: in a deleting pass, Handle first calls PatchTargets with empty
targets, the accessor hosts, this cluster id and remove=true, and the
finalizer is removed exactly when that call succeeds (on failure the
finalizer list is untouched and the pass requeues after 10 s); in any
pass, AddFinalizer runs only immediately after a successful remove=false
upsert of non-empty targets, and RemoveFinalizer runs only immediately
after a successful remove=true withdrawal, so the finalizer is never
removed in a pass without a successful withdrawal for this cluster in
that pass. -/
theorem ingress_handle_finalizer_safety (clusterID : String) (acc : Accessor) (env : IEnv) :
    (isDeleting acc.deletionTs = true →
      (handle clusterID acc env).effects.head? =
        some (IEffect.patchTargets [] acc.hosts clusterID true
          (env.patchOk [] acc.hosts clusterID true)) ∧
      (env.patchOk [] acc.hosts clusterID true = true →
        (handle clusterID acc env).finalizers = removeFinalizer acc.finalizers ∧
        (handle clusterID acc env).err = none) ∧
      (env.patchOk [] acc.hosts clusterID true = false →
        (handle clusterID acc env).finalizers = acc.finalizers ∧
        (handle clusterID acc env).res = { requeue := true, afterSec := 10 })) ∧
    (IEffect.addFin ∈ (handle clusterID acc env).effects →
      ∃ pre ts, ts ≠ [] ∧
        (handle clusterID acc env).effects =
          pre ++ [IEffect.patchTargets ts acc.hosts clusterID false true, IEffect.addFin] ∧
        (handle clusterID acc env).finalizers = addFinalizer acc.finalizers) ∧
    (IEffect.removeFin ∈ (handle clusterID acc env).effects →
      ∃ pre ts,
        (handle clusterID acc env).effects =
          pre ++ [IEffect.patchTargets ts acc.hosts clusterID true true, IEffect.removeFin] ∧
        (handle clusterID acc env).finalizers = removeFinalizer acc.finalizers) := by
  by_cases hdel : isDeleting acc.deletionTs = true
  · by_cases hok : env.patchOk [] acc.hosts clusterID true = true
    · have heq : handle clusterID acc env =
          { res := { requeue := false, afterSec := 0 }, err := none,
            effects := [IEffect.patchTargets [] acc.hosts clusterID true true,
                        IEffect.removeFin],
            finalizers := removeFinalizer acc.finalizers } := by
        simp [handle, hdel, hok]
      rw [heq]
      refine ⟨fun _ => ⟨by rw [hok]; rfl, fun _ => ⟨rfl, rfl⟩, fun hfalse => ?_⟩, ?_, ?_⟩
      · rw [hok] at hfalse
        cases hfalse
      · intro hmem
        simp at hmem
      · intro _
        exact ⟨[], [], rfl, rfl⟩
    · have hok2 : env.patchOk [] acc.hosts clusterID true = false := by
        cases hb : env.patchOk [] acc.hosts clusterID true
        · rfl
        · exact absurd hb hok
      have heq : handle clusterID acc env =
          { res := { requeue := true, afterSec := 10 }, err := some "patch targets failed",
            effects := [IEffect.patchTargets [] acc.hosts clusterID true false],
            finalizers := acc.finalizers } := by
        simp [handle, hdel, hok2]
      rw [heq]
      refine ⟨fun _ => ⟨by rw [hok2]; rfl, fun htrue => ?_, fun _ => ⟨rfl, rfl⟩⟩, ?_, ?_⟩
      · rw [hok2] at htrue
        cases htrue
      · intro hmem
        simp at hmem
      · intro hmem
        simp at hmem
  · cases hll : ihostLoop env acc.hosts [] with
    | mk effs earlyOpt =>
      have hcert : ∀ e ∈ effs,
          (∃ h, e = IEffect.getSecret h) ∨ (∃ h, e = IEffect.copySecret h) ∨
            (∃ h n, e = IEffect.addTLS h n) := by
        intro e he
        have he2 : e ∈ (ihostLoop env acc.hosts []).1 := by rw [hll]; exact he
        rcases ihostLoop_effects_mem env acc.hosts [] e he2 with h1 | h1
        · exact absurd h1 (List.not_mem_nil e)
        · exact h1
      have hnofin : IEffect.addFin ∉ effs ∧ IEffect.removeFin ∉ effs := by
        constructor
        · intro hmem
          rcases hcert _ hmem with ⟨h, hc⟩ | ⟨h, hc⟩ | ⟨h, n, hc⟩ <;> cases hc
        · intro hmem
          rcases hcert _ hmem with ⟨h, hc⟩ | ⟨h, hc⟩ | ⟨h, n, hc⟩ <;> cases hc
      cases earlyOpt with
      | some p =>
        obtain ⟨res0, err0⟩ := p
        have heq : handle clusterID acc env =
            { res := res0, err := err0, effects := effs, finalizers := acc.finalizers } := by
          simp [handle, hdel, hll]
        rw [heq]
        refine ⟨fun hd => absurd hd hdel, ?_, ?_⟩
        · intro hmem
          exact absurd hmem hnofin.1
        · intro hmem
          exact absurd hmem hnofin.2
      | none =>
        cases ht : acc.dnsTargets with
        | none =>
          have heq : handle clusterID acc env =
              { res := { requeue := false, afterSec := 0 },
                err := some "error getting dns targets",
                effects := effs, finalizers := acc.finalizers } := by
            simp [handle, hdel, hll, ht]
          rw [heq]
          refine ⟨fun hd => absurd hd hdel, ?_, ?_⟩
          · intro hmem
            exact absurd hmem hnofin.1
          · intro hmem
            exact absurd hmem hnofin.2
        | some targets =>
          by_cases hcond : targets.length > 0 ∧ acc.deletionTs = none
          · by_cases hok : env.patchOk targets acc.hosts clusterID false = true
            · have heq : handle clusterID acc env =
                  { res := { requeue := false, afterSec := 0 }, err := none,
                    effects := effs ++ [IEffect.patchTargets targets acc.hosts clusterID
                      false true, IEffect.addFin],
                    finalizers := addFinalizer acc.finalizers } := by
                simp [handle, hdel, hll, ht, if_pos hcond, hok]
              rw [heq]
              refine ⟨fun hd => absurd hd hdel, ?_, ?_⟩
              · intro _
                refine ⟨effs, targets, ?_, rfl, rfl⟩
                intro hnil
                rw [hnil] at hcond
                simp at hcond
              · intro hmem
                rcases List.mem_append.mp hmem with h1 | h1
                · exact absurd h1 hnofin.2
                · rcases List.mem_cons.mp h1 with h2 | h2
                  · cases h2
                  · rcases List.mem_cons.mp h2 with h3 | h3
                    · cases h3
                    · exact absurd h3 (List.not_mem_nil _)
            · have hok2 : env.patchOk targets acc.hosts clusterID false = false := by
                cases hb : env.patchOk targets acc.hosts clusterID false
                · rfl
                · exact absurd hb hok
              have heq : handle clusterID acc env =
                  { res := { requeue := true, afterSec := 10 },
                    err := some "patch targets failed",
                    effects := effs ++ [IEffect.patchTargets targets acc.hosts clusterID
                      false false],
                    finalizers := acc.finalizers } := by
                simp [handle, hdel, hll, ht, if_pos hcond, hok2]
              rw [heq]
              refine ⟨fun hd => absurd hd hdel, ?_, ?_⟩
              · intro hmem
                rcases List.mem_append.mp hmem with h1 | h1
                · exact absurd h1 hnofin.1
                · cases List.mem_singleton.mp h1
              · intro hmem
                rcases List.mem_append.mp hmem with h1 | h1
                · exact absurd h1 hnofin.2
                · cases List.mem_singleton.mp h1
          · by_cases hok : env.patchOk targets acc.hosts clusterID true = true
            · have heq : handle clusterID acc env =
                  { res := { requeue := false, afterSec := 0 }, err := none,
                    effects := effs ++ [IEffect.patchTargets targets acc.hosts clusterID
                      true true, IEffect.removeFin],
                    finalizers := removeFinalizer acc.finalizers } := by
                simp [handle, hdel, hll, ht, if_neg hcond, hok]
              rw [heq]
              refine ⟨fun hd => absurd hd hdel, ?_, ?_⟩
              · intro hmem
                rcases List.mem_append.mp hmem with h1 | h1
                · exact absurd h1 hnofin.1
                · rcases List.mem_cons.mp h1 with h2 | h2
                  · cases h2
                  · rcases List.mem_cons.mp h2 with h3 | h3
                    · cases h3
                    · exact absurd h3 (List.not_mem_nil _)
              · intro _
                exact ⟨effs, targets, rfl, rfl⟩
            · have hok2 : env.patchOk targets acc.hosts clusterID true = false := by
                cases hb : env.patchOk targets acc.hosts clusterID true
                · rfl
                · exact absurd hb hok
              have heq : handle clusterID acc env =
                  { res := { requeue := true, afterSec := 10 },
                    err := some "patch targets failed",
                    effects := effs ++ [IEffect.patchTargets targets acc.hosts clusterID
                      true false],
                    finalizers := acc.finalizers } := by
                simp [handle, hdel, hll, ht, if_neg hcond, hok2]
              rw [heq]
              refine ⟨fun hd => absurd hd hdel, ?_, ?_⟩
              · intro hmem
                rcases List.mem_append.mp hmem with h1 | h1
                · exact absurd h1 hnofin.1
                · cases List.mem_singleton.mp h1
              · intro hmem
                rcases List.mem_append.mp hmem with h1 | h1
                · exact absurd h1 hnofin.2
                · cases List.mem_singleton.mp h1

/-- C3 witness: deleting accessor, successful withdrawal: the pass opens
with the empty-targets remove patch and ends with the finalizer gone. -/
theorem ingress_handle_finalizer_safety_witness :
    (handle "c1" c3Acc c3Env).effects.head? =
      some (IEffect.patchTargets [] c3Acc.hosts "c1" true true) ∧
    (handle "c1" c3Acc c3Env).finalizers = removeFinalizer c3Acc.finalizers ∧
    (handle "c1" c3Acc c3Env).err = none := by
  have h := ingress_handle_finalizer_safety "c1" c3Acc c3Env
  have hd := h.1 (by decide)
  exact ⟨hd.1, (hd.2.1 rfl).1, (hd.2.1 rfl).2⟩
